import Mathlib

/-!
Verification of the spell-card processing pipeline (process_spells.py).

The Python source is embedded shallowly: strings are Lean `String`s
(lists of characters), PDF form annotations become a small structure,
the per-page loop body of `__main__` becomes a pure step function on an
explicit loop state, and the interactive class prompt is modelled by an
oracle argument carrying the classes the operator would enter.
Python whitespace and `int()` parsing are modelled over ASCII.
-/

namespace SpellCompendium

/-- Whitespace characters of Python's default `str.strip` and the regex
class `\s`, restricted to ASCII. -/
def pySpace (c : Char) : Bool :=
  c == ' ' || c == '\t' || c == '\n' || c == '\r' || c == '\x0b' || c == '\x0c'

/-- Drop leading and trailing whitespace from a character list
(Python `str.strip`). -/
def pyStripL (cs : List Char) : List Char :=
  ((cs.dropWhile pySpace).reverse.dropWhile pySpace).reverse

/-- Python `str.strip` on strings. -/
def pyStrip (s : String) : String := ⟨pyStripL s.data⟩

/-- Python `str.startswith`. -/
def startsWithL (s pfx : String) : Bool := pfx.data.isPrefixOf s.data

/-- A dynamically typed Python value as it flows through the loop's
`level` variable: an `int`, a `str`, or `None`. -/
inductive PyVal where
  | vInt (n : Int)
  | vStr (s : String)
  | vNone
deriving DecidableEq

/-- Numeric value of a run of decimal digit characters. -/
def digitsVal (ds : List Char) : Nat :=
  ds.foldl (fun acc c => acc * 10 + (c.toNat - '0'.toNat)) 0

/-- Python `int(s)` on a string: optional surrounding whitespace, an
optional sign, then a non-empty run of decimal digits; `none` models the
`ValueError` raised otherwise. -/
def pyStrToInt (s : String) : Option Int :=
  match pyStripL s.data with
  | [] => none
  | c :: rest =>
    let ds := if c == '-' || c == '+' then rest else c :: rest
    let sign : Int := if c == '-' then -1 else 1
    if !ds.isEmpty && ds.all Char.isDigit then some (sign * (digitsVal ds : Int))
    else none

/-- Python `int(v)` on the loop's `level` variable; `none` models the
exception raised on a `None` or non-numeric argument. -/
def pyIntCoerce : PyVal → Option Int
  | .vInt n => some n
  | .vStr s => pyStrToInt s
  | .vNone => none

/-- Python truthiness of an optional string: `None` and `""` are falsy. -/
def truthyOpt : Option String → Bool
  | none => false
  | some s => !(s == "")

/-- Injection of `get_form_field`'s result into the `level` variable. -/
def pyOfOpt : Option String → PyVal
  | none => .vNone
  | some s => .vStr s

/-! ### Slug Normalizer (`slugify`, process_spells.py lines 48-53) -/

/-- Characters kept by the regex substitution removing everything
outside lowercase letters, digits, whitespace and hyphen. -/
def allowedChar (c : Char) : Bool :=
  ('a' ≤ c && c ≤ 'z') || ('0' ≤ c && c ≤ '9') || pySpace c || c == '-'

/-- The regex substitution replacing every maximal whitespace run with a
single hyphen; the flag records whether a run is in progress. -/
def collapseWsAux : Bool → List Char → List Char
  | _, [] => []
  | inRun, c :: cs =>
    if pySpace c then
      if inRun then collapseWsAux true cs else '-' :: collapseWsAux true cs
    else c :: collapseWsAux false cs

/-- The character list after stripping, lower-casing and removing
disallowed characters — the input to whitespace collapsing. -/
def slugChars (s : String) : List Char :=
  ((pyStripL s.data).map Char.toLower).filter allowedChar

/-- `slugify`: strip, lower-case, drop disallowed characters, collapse
whitespace runs to hyphens. -/
def slugify (s : String) : String := ⟨collapseWsAux false (slugChars s)⟩

/-! ### Field Resolver (`get_form_field`, process_spells.py lines 56-79) -/

/-- The parent form field an annotation may point to: its `/T` name and
its `/V` value. -/
structure ParentField where
  T : Option String
  V : Option String
deriving DecidableEq

/-- A form-field annotation on a page: own `/T` name, optional `/Parent`
field, own `/V` value. -/
structure Annot where
  T : Option String
  parent : Option ParentField
  V : Option String
deriving DecidableEq

/-- The identifier used for prefix matching: the annotation's own `/T`
(defaulted to `""`), falling back to the parent's `/T` when the own name
is empty and a parent exists; `none` models a non-string name. -/
def annotFieldName (a : Annot) : Option String :=
  let own := a.T.getD ""
  if own == "" then
    match a.parent with
    | some p => p.T
    | none => some own
  else some own

/-- Whether an annotation's identifier starts with the given prefix. -/
def annotMatches (a : Annot) (pfx : String) : Bool :=
  match annotFieldName a with
  | some n => startsWithL n pfx
  | none => false

/-- The value read on a match: the annotation's `/V`, falling back to
the parent's `/V` when the own value is falsy and a parent exists. -/
def annotValue (a : Annot) : Option String :=
  match a.V, a.parent with
  | some s, some p => if s == "" then p.V else some s
  | some s, none => some s
  | none, some p => p.V
  | none, none => none

/-- `get_form_field`: scan the page's annotations in document order; on
a prefix match return the resolved value stripped, unless that value is
`None`, in which case the scan continues. -/
def get_form_field : List Annot → String → Option String
  | [], _ => none
  | a :: rest, pfx =>
    if annotMatches a pfx then
      match annotValue a with
      | some v => some (pyStrip v)
      | none => get_form_field rest pfx
    else get_form_field rest pfx

/-! ### Record Reconciler and Batch Driver step (process_spells.py lines 161-227) -/

/-- One entry appended to `data/spells.js`. -/
structure Entry where
  name : String
  level : Int
  school : String
  classes : List String
  image : String
  pdf : String
deriving DecidableEq

/-- The mutable variables of the `__main__` page loop. -/
structure LoopState where
  entries : List Entry
  skipped : Nat
  level : PyVal
  school : Option String
  classes : List String
deriving DecidableEq

/-- The loop variables as initialised before the first page. -/
def initState : LoopState := ⟨[], 0, PyVal.vInt 0, some "", []⟩

/-- Python `school or "Unknown"`: falsy (`None` or empty) becomes the
sentinel. -/
def schoolOrUnknown : Option String → String
  | none => "Unknown"
  | some s => if s == "" then "Unknown" else s

/-- One iteration of the page loop. `asked` is the oracle for
`ask_classes` — the classes the operator would enter for this page.
Returns `none` when the iteration raises (the bare `int(level)` call),
else the updated loop state and the list of artifact paths written. -/
def processPage (st : LoopState) (pg : List Annot) (asked : List String) :
    Option (LoopState × List String) :=
  let name0 := get_form_field pg "Name_"
  let pname := get_form_field pg "PName_"
  let school1 := if truthyOpt pname then st.school else get_form_field pg "School_"
  let level1 := if truthyOpt pname then st.level else pyOfOpt (get_form_field pg "Level_")
  let name := if truthyOpt pname then pname else name0
  if !(truthyOpt name || truthyOpt pname) then
    some ({ st with skipped := st.skipped + 1, school := school1, level := level1 }, [])
  else
    match pyIntCoerce level1 with
    | none => none
    | some lv =>
      let school2 := schoolOrUnknown school1
      let slug := name.getD ""
      let pdfOut := "spells/" ++ slug ++ ".pdf"
      let imgOut := "images/" ++ slug ++ ".webp"
      let hiresOut := "high_res_images/" ++ slug ++ ".png"
      let classes2 := if truthyOpt pname then st.classes else asked
      let e : Entry := ⟨slug, lv, school2, classes2, imgOut, pdfOut⟩
      some ({ entries := st.entries ++ [e], skipped := st.skipped,
              level := PyVal.vInt lv, school := some school2, classes := classes2 },
            [pdfOut, imgOut, hiresOut])

/-- The value the bare `int(level)` call receives on a page: the carried
level for a name-only page, the freshly resolved `Level_` otherwise. -/
def levelToCoerce (st : LoopState) (pg : List Annot) : PyVal :=
  if truthyOpt (get_form_field pg "PName_") then st.level
  else pyOfOpt (get_form_field pg "Level_")

/-- Whether a page passes the skip check (some name resolved). -/
def pageAccepted (pg : List Annot) : Bool :=
  truthyOpt (get_form_field pg "Name_") || truthyOpt (get_form_field pg "PName_")

/-! ### Collection Appender (`append_to_spells_js`, process_spells.py lines 102-137) -/

/-- The JS line written for one entry. -/
def formatEntry (e : Entry) : String :=
  "  \x7b name: \"" ++ e.name ++ "\", level: " ++ toString e.level ++
  ", school: \"" ++ e.school ++ "\", classes: [" ++
  String.intercalate ", " (e.classes.map (fun c => "\"" ++ c ++ "\"")) ++
  "], image: \"" ++ e.image ++ "\", pdf: \"" ++ e.pdf ++ "\" \x7d,"

/-- The block of text inserted before the closing marker: one line per
entry, in input order. -/
def entriesText (es : List Entry) : String :=
  String.intercalate "\n" (es.map formatEntry) ++ "\n"

/-- Whether `pat` occurs in `cs` starting at position `i`. -/
def isSubAt (cs pat : List Char) (i : Nat) : Bool := pat.isPrefixOf (cs.drop i)

/-- Python `str.rfind`: the last position at which `pat` occurs, or
`none`. -/
def rfindSub (cs pat : List Char) : Option Nat :=
  ((List.range (cs.length + 1)).filter (fun i => isSubAt cs pat i)).getLast?

/-- The empty well-formed collection written when `data/spells.js` is
absent. -/
def emptySpellsJs : String := "const SPELLS = [\n];\n"

/-- `append_to_spells_js`: the file's content (the fresh empty
collection when the file is absent), with the entry lines spliced in
immediately before the last occurrence of the closing marker `];`.
Returns `none` — no write — when the marker is not found. -/
def append_to_spells_js (file : Option String) (es : List Entry) : Option String :=
  let content := (file.getD emptySpellsJs).data
  match rfindSub content "];".data with
  | none => none
  | some pos => some ⟨content.take pos ++ (entriesText es).data ++ content.drop pos⟩

/-! ### Helper lemmas about whitespace collapsing -/

/-- If collapsing produces the empty list, every input character was
whitespace. -/
theorem collapseWsAux_nil_all_space {l : List Char} {b : Bool}
    (h : collapseWsAux b l = []) : ∀ c ∈ l, pySpace c = true := by
  induction l generalizing b with
  | nil => simp
  | cons x xs ih =>
    simp only [collapseWsAux] at h
    by_cases hx : pySpace x = true
    · rw [if_pos hx] at h
      cases b with
      | true =>
        intro c hc
        rcases List.mem_cons.mp hc with rfl | hc
        · exact hx
        · exact ih h c hc
      | false => simp at h
    · rw [if_neg hx] at h
      simp at h

/-- Collapsing with no run in progress returns the empty list only on
the empty list. -/
theorem collapseWsAux_false_nil {l : List Char}
    (h : collapseWsAux false l = []) : l = [] := by
  cases l with
  | nil => rfl
  | cons x xs =>
    simp only [collapseWsAux] at h
    by_cases hx : pySpace x = true
    · rw [if_pos hx] at h
      simp at h
    · rw [if_neg hx] at h
      simp at h

/-- Every character of the collapsed list of an all-allowed list is a
lowercase letter, a digit, or a hyphen. -/
theorem mem_collapseWsAux_allowed {l : List Char} {b : Bool} {c : Char}
    (hl : ∀ x ∈ l, allowedChar x = true) (hc : c ∈ collapseWsAux b l) :
    ('a' ≤ c ∧ c ≤ 'z') ∨ ('0' ≤ c ∧ c ≤ '9') ∨ c = '-' := by
  induction l generalizing b with
  | nil => simp [collapseWsAux] at hc
  | cons x xs ih =>
    have hx0 := hl x (List.mem_cons_self x xs)
    have hxs : ∀ y ∈ xs, allowedChar y = true := fun y hy => hl y (List.mem_cons_of_mem x hy)
    simp only [collapseWsAux] at hc
    by_cases hx : pySpace x = true
    · rw [if_pos hx] at hc
      cases b with
      | true => exact ih hxs hc
      | false =>
        simp only [Bool.false_eq_true, if_false] at hc
        rcases List.mem_cons.mp hc with rfl | hc
        · exact Or.inr (Or.inr rfl)
        · exact ih hxs hc
    · rw [if_neg hx] at hc
      rcases List.mem_cons.mp hc with rfl | hc
      · simp only [allowedChar, Bool.or_eq_true, Bool.and_eq_true, decide_eq_true_eq,
          beq_iff_eq] at hx0
        rcases hx0 with ((h | h) | h) | h
        · exact Or.inl h
        · exact Or.inr (Or.inl h)
        · exact absurd h hx
        · exact Or.inr (Or.inr h)
      · exact ih hxs hc

/-- The head of a collapsed list is the head of the input, with
whitespace turned into a hyphen. -/
theorem collapseWs_head? (l : List Char) :
    (collapseWsAux false l).head? = l.head?.map (fun c => if pySpace c then '-' else c) := by
  cases l with
  | nil => rfl
  | cons x xs =>
    simp only [collapseWsAux]
    by_cases hx : pySpace x = true
    · rw [if_pos hx]
      simp [hx]
    · rw [if_neg hx]
      simp [hx]

/-- The last element of a list with a cons, when the tail is nonempty. -/
theorem getLast?_cons_of_ne {α : Type} (a : α) {l : List α} (h : l ≠ []) :
    (a :: l).getLast? = l.getLast? := by
  cases l with
  | nil => exact absurd rfl h
  | cons b t => exact List.getLast?_cons_cons

/-- A list with no last element is empty. -/
theorem eq_nil_of_getLast?_none {α : Type} {l : List α} (h : l.getLast? = none) : l = [] := by
  induction l with
  | nil => rfl
  | cons a t ih =>
    cases t with
    | nil => simp at h
    | cons b u =>
      rw [List.getLast?_cons_cons] at h
      exact absurd (ih h) (by simp)

/-- A collapsed list ends in a hyphen only if the input ends in
whitespace or a hyphen. -/
theorem collapseWsAux_getLast_hyphen {l : List Char} {b : Bool}
    (h : (collapseWsAux b l).getLast? = some '-') :
    ∃ c, l.getLast? = some c ∧ (pySpace c = true ∨ c = '-') := by
  induction l generalizing b with
  | nil => simp [collapseWsAux] at h
  | cons x xs ih =>
    simp only [collapseWsAux] at h
    by_cases hx : pySpace x = true
    · rw [if_pos hx] at h
      cases b with
      | true =>
        rcases ih h with ⟨c, hc1, hc2⟩
        have hne : xs ≠ [] := by
          intro he
          rw [he] at hc1
          simp at hc1
        exact ⟨c, by rw [getLast?_cons_of_ne x hne]; exact hc1, hc2⟩
      | false =>
        simp only [Bool.false_eq_true, if_false] at h
        cases hrec : collapseWsAux true xs with
        | nil =>
          have hsp := collapseWsAux_nil_all_space hrec
          cases hxs : xs.getLast? with
          | none =>
            have hznil : xs = [] := eq_nil_of_getLast?_none hxs
            subst hznil
            exact ⟨x, by simp, Or.inl hx⟩
          | some c =>
            have hcm := List.mem_of_getLast?_eq_some hxs
            have hne : xs ≠ [] := by
              intro he
              rw [he] at hxs
              simp at hxs
            exact ⟨c, by rw [getLast?_cons_of_ne x hne]; exact hxs, Or.inl (hsp c hcm)⟩
        | cons d ds =>
          rw [hrec, List.getLast?_cons_cons] at h
          rcases ih (b := true) (by rw [hrec]; exact h) with ⟨c, hc1, hc2⟩
          have hne : xs ≠ [] := by
            intro he
            rw [he] at hc1
            simp at hc1
          exact ⟨c, by rw [getLast?_cons_of_ne x hne]; exact hc1, hc2⟩
    · rw [if_neg hx] at h
      cases hrec : collapseWsAux false xs with
      | nil =>
        have hznil : xs = [] := collapseWsAux_false_nil hrec
        subst hznil
        simp only [collapseWsAux, List.getLast?_singleton] at h
        simp only [Option.some.injEq] at h
        exact ⟨x, by simp, Or.inr h⟩
      | cons d ds =>
        rw [hrec, List.getLast?_cons_cons] at h
        rcases ih (b := false) (by rw [hrec]; exact h) with ⟨c, hc1, hc2⟩
        have hne : xs ≠ [] := by
          intro he
          rw [he] at hc1
          simp at hc1
        exact ⟨c, by rw [getLast?_cons_of_ne x hne]; exact hc1, hc2⟩

/-! ### Claim C9 -/

/-- C9 counterexample: the input "-a" has no leading or trailing
whitespace (neither of its characters is whitespace), yet the Slug
Normalizer returns it unchanged, with a leading and a trailing hyphen
untouched — refuting the claim that trimmed input never yields
leading or trailing hyphens. -/
theorem c9_counterexample :
    pySpace '-' = false ∧ pySpace 'a' = false ∧ slugify "-a" = "-a" ∧
    (slugify "-a").data.head? = some '-' := by decide

/-- C9 (amended): the Slug Normalizer's output contains only lowercase
letters, digits and hyphens (no uppercase, no other punctuation); and
the output begins (or ends) with a hyphen only when, after trimming,
lower-casing and removing disallowed characters, the remaining input
itself begins (or ends) with a hyphen or a whitespace character — so a
trimmed input yields no leading or trailing hyphen unless its filtered
form starts or ends with a hyphen or surviving whitespace. -/
theorem c9_slug_charset_edges (s : String) :
    (∀ c ∈ (slugify s).data, ('a' ≤ c ∧ c ≤ 'z') ∨ ('0' ≤ c ∧ c ≤ '9') ∨ c = '-') ∧
    ((slugify s).data.head? = some '-' →
      ∃ c, (slugChars s).head? = some c ∧ (pySpace c = true ∨ c = '-')) ∧
    ((slugify s).data.getLast? = some '-' →
      ∃ c, (slugChars s).getLast? = some c ∧ (pySpace c = true ∨ c = '-')) := by
  have hdata : (slugify s).data = collapseWsAux false (slugChars s) := rfl
  refine ⟨?_, ?_, ?_⟩
  · intro c hc
    rw [hdata] at hc
    refine mem_collapseWsAux_allowed ?_ hc
    intro x hx
    exact (List.mem_filter.mp hx).2
  · intro h
    rw [hdata, collapseWs_head?] at h
    cases hsc : (slugChars s).head? with
    | none =>
      rw [hsc] at h
      simp at h
    | some c =>
      rw [hsc] at h
      simp only [Option.map_some', Option.some.injEq] at h
      by_cases hcs : pySpace c = true
      · exact ⟨c, rfl, Or.inl hcs⟩
      · rw [if_neg hcs] at h
        exact ⟨c, rfl, Or.inr h⟩
  · intro h
    rw [hdata] at h
    exact collapseWsAux_getLast_hyphen h

/-- C9 witness: the amended theorem applied at the concrete input "-a",
whose slug begins with a hyphen. -/
theorem c9_witness :
    ∃ c, (slugChars "-a").head? = some c ∧ (pySpace c = true ∨ c = '-') :=
  (c9_slug_charset_edges "-a").2.1 (by decide)

/-! ### Claim C1 -/

/-- C1: the code computes a correct slug ("magic-missile") with its
`slugify` function but never calls it — the page loop sets
`slug = name` — so the artifact paths of an accepted record with name
"Magic Missile" are "spells/Magic Missile.pdf" and
"images/Magic Missile.webp", built from the raw name, not from the
Slug Normalizer's output as the claim states. -/
theorem c1_paths_use_raw_name :
    slugify "Magic Missile" = "magic-missile" ∧
    (processPage initState
        [⟨some "Name_F00", none, some "Magic Missile"⟩, ⟨some "Level_F01", none, some "1"⟩]
        []).map (fun p => p.1.entries.map (fun e => (e.pdf, e.image))) =
      some [("spells/Magic Missile.pdf", "images/Magic Missile.webp")] ∧
    ("spells/Magic Missile.pdf" : String) ≠ "spells/" ++ slugify "Magic Missile" ++ ".pdf" := by
  decide

/-! ### Claim C2 -/

/-- C2 counterexample: a page holding a single annotation whose
identifier "Name_A" starts with the prefix "Name_" but whose value is
absent. The claim says the resolver returns absent exactly when no
field's identifier starts with the prefix, so here it must return a
value; the code returns absent. -/
theorem c2_counterexample :
    annotMatches ⟨some "Name_A", none, none⟩ "Name_" = true ∧
    get_form_field [⟨some "Name_A", none, none⟩] "Name_" = none := by decide

/-- C2 (amended): the Field Resolver returns the trimmed resolved value
of the first field in document order whose identifier starts with the
prefix AND whose resolved value (own value, falling back to the parent
field's value) is present; a matching field whose resolved value is
absent is passed over and later matches are consulted; it returns
absent exactly when no matching field yields a present value. -/
theorem c2_resolver_first_with_value (l : List Annot) (pfx : String) :
    get_form_field l pfx =
      l.findSome? (fun a => if annotMatches a pfx then (annotValue a).map pyStrip else none) := by
  induction l with
  | nil => rfl
  | cons a rest ih =>
    rw [List.findSome?_cons]
    simp only [get_form_field]
    by_cases hm : annotMatches a pfx = true
    · rw [if_pos hm, if_pos hm]
      cases hv : annotValue a with
      | none => simpa using ih
      | some v => simp
    · rw [if_neg hm, if_neg hm]
      simpa using ih

/-! ### Helper lemmas about the page-loop step -/

/-- A page resolving neither name is counted as skipped; the carried
school and level are still overwritten with this page's resolutions. -/
theorem processPage_skip (st : LoopState) (pg : List Annot) (asked : List String)
    (hn : truthyOpt (get_form_field pg "Name_") = false)
    (hp : truthyOpt (get_form_field pg "PName_") = false) :
    processPage st pg asked =
      some ({ st with
                skipped := st.skipped + 1
                school := get_form_field pg "School_"
                level := pyOfOpt (get_form_field pg "Level_") }, []) := by
  simp [processPage, hn, hp]

/-- A page with a truthy `PName_` value takes the name-only path: the
record is built from the resolved pname and the carried school, level
and classes. -/
theorem processPage_nameonly (st : LoopState) (pg : List Annot) (asked : List String)
    {s : String} (hp : get_form_field pg "PName_" = some s) (hs : s ≠ "")
    {lv : Int} (hl : pyIntCoerce st.level = some lv) :
    processPage st pg asked =
      some ({ entries := st.entries ++ [⟨s, lv, schoolOrUnknown st.school, st.classes,
                  "images/" ++ s ++ ".webp", "spells/" ++ s ++ ".pdf"⟩]
              skipped := st.skipped
              level := PyVal.vInt lv
              school := some (schoolOrUnknown st.school)
              classes := st.classes },
            ["spells/" ++ s ++ ".pdf", "images/" ++ s ++ ".webp",
             "high_res_images/" ++ s ++ ".png"]) := by
  have htp : truthyOpt (some s) = true := by simp [truthyOpt, hs]
  simp [processPage, hp, htp, hl]

/-- A page with falsy `PName_` and truthy `Name_` takes the full path:
school and level are resolved from this page and the classes oracle is
consulted. -/
theorem processPage_full (st : LoopState) (pg : List Annot) (asked : List String)
    {n : String} (hpn : truthyOpt (get_form_field pg "PName_") = false)
    (hn : get_form_field pg "Name_" = some n) (hne : n ≠ "")
    {lv : Int} (hl : pyIntCoerce (pyOfOpt (get_form_field pg "Level_")) = some lv) :
    processPage st pg asked =
      some ({ entries := st.entries ++
                  [⟨n, lv, schoolOrUnknown (get_form_field pg "School_"), asked,
                    "images/" ++ n ++ ".webp", "spells/" ++ n ++ ".pdf"⟩]
              skipped := st.skipped
              level := PyVal.vInt lv
              school := some (schoolOrUnknown (get_form_field pg "School_"))
              classes := asked },
            ["spells/" ++ n ++ ".pdf", "images/" ++ n ++ ".webp",
             "high_res_images/" ++ n ++ ".png"]) := by
  have htn : truthyOpt (some n) = true := by simp [truthyOpt, hne]
  simp [processPage, hpn, hn, htn, hl]

/-- A page with a truthy `PName_` but a carried level that does not
coerce raises. -/
theorem processPage_nameonly_fatal (st : LoopState) (pg : List Annot) (asked : List String)
    {s : String} (hp : get_form_field pg "PName_" = some s) (hs : s ≠ "")
    (hl : pyIntCoerce st.level = none) : processPage st pg asked = none := by
  have htp : truthyOpt (some s) = true := by simp [truthyOpt, hs]
  simp [processPage, hp, htp, hl]

/-- A full page whose resolved `Level_` does not coerce raises. -/
theorem processPage_full_fatal (st : LoopState) (pg : List Annot) (asked : List String)
    (hpn : truthyOpt (get_form_field pg "PName_") = false)
    (hn : truthyOpt (get_form_field pg "Name_") = true)
    (hl : pyIntCoerce (pyOfOpt (get_form_field pg "Level_")) = none) :
    processPage st pg asked = none := by
  simp [processPage, hpn, hn, hl]

/-- A truthy optional string is a nonempty string. -/
theorem truthyOpt_eq_true {o : Option String} (h : truthyOpt o = true) :
    ∃ s, o = some s ∧ s ≠ "" := by
  cases o with
  | none => simp [truthyOpt] at h
  | some s =>
    refine ⟨s, rfl, ?_⟩
    simpa [truthyOpt] using h

/-- `int()` fails exactly on `None` and on non-numeric strings. -/
theorem pyIntCoerce_eq_none (v : PyVal) :
    pyIntCoerce v = none ↔
      (v = PyVal.vNone ∨ ∃ s, v = PyVal.vStr s ∧ pyStrToInt s = none) := by
  cases v <;> simp [pyIntCoerce]

/-! ### Claim C3 -/

/-- C3: on a page whose `PName_` prefix resolves to a nonempty value
`s`, the reconciler yields the name-only record: the record's name is
`s`, while its school and level come from the carried state of the
previous iteration (`st.school`, `st.level`) — the page's own `School_`
and `Level_` fields are not consulted. -/
theorem c3_pname_nameonly (st : LoopState) (pg : List Annot) (asked : List String)
    {s : String} (hp : get_form_field pg "PName_" = some s) (hs : s ≠ "")
    {lv : Int} (hl : pyIntCoerce st.level = some lv) :
    processPage st pg asked =
      some ({ entries := st.entries ++ [⟨s, lv, schoolOrUnknown st.school, st.classes,
                  "images/" ++ s ++ ".webp", "spells/" ++ s ++ ".pdf"⟩]
              skipped := st.skipped
              level := PyVal.vInt lv
              school := some (schoolOrUnknown st.school)
              classes := st.classes },
            ["spells/" ++ s ++ ".pdf", "images/" ++ s ++ ".webp",
             "high_res_images/" ++ s ++ ".png"]) :=
  processPage_nameonly st pg asked hp hs hl

/-- C3 witness: a page with `PName_F01 = "Fireball"` processed from a
state carrying level 2 and school "Evocation" yields the name-only
record named "Fireball" with the carried school and level. -/
theorem c3_witness :
    processPage ⟨[], 0, PyVal.vInt 2, some "Evocation", ["Bard"]⟩
        [⟨some "PName_F01", none, some "Fireball"⟩] [] =
      some (⟨[⟨"Fireball", 2, "Evocation", ["Bard"],
               "images/Fireball.webp", "spells/Fireball.pdf"⟩],
             0, PyVal.vInt 2, some "Evocation", ["Bard"]⟩,
            ["spells/Fireball.pdf", "images/Fireball.webp",
             "high_res_images/Fireball.png"]) :=
  (@c3_pname_nameonly ⟨[], 0, PyVal.vInt 2, some "Evocation", ["Bard"]⟩
    [⟨some "PName_F01", none, some "Fireball"⟩] [] "Fireball" (by decide) (by decide)
    2 (by decide)).trans (by decide)

/-! ### Claim C4 -/

/-- C4: on a page where `PName_` is falsy but `Name_` resolves to a
nonempty value, the reconciler yields the full record: name from
`Name_`, school from `School_` with the sentinel "Unknown" when that
resolution is absent (or empty), and level the integer coercion of the
resolved `Level_` string. -/
theorem c4_full_variant (st : LoopState) (pg : List Annot) (asked : List String)
    {n : String} (hpn : truthyOpt (get_form_field pg "PName_") = false)
    (hn : get_form_field pg "Name_" = some n) (hne : n ≠ "")
    {ls : String} (hl : get_form_field pg "Level_" = some ls)
    {lv : Int} (hlv : pyStrToInt ls = some lv) :
    processPage st pg asked =
      some ({ entries := st.entries ++
                  [⟨n, lv, schoolOrUnknown (get_form_field pg "School_"), asked,
                    "images/" ++ n ++ ".webp", "spells/" ++ n ++ ".pdf"⟩]
              skipped := st.skipped
              level := PyVal.vInt lv
              school := some (schoolOrUnknown (get_form_field pg "School_"))
              classes := asked },
            ["spells/" ++ n ++ ".pdf", "images/" ++ n ++ ".webp",
             "high_res_images/" ++ n ++ ".png"]) :=
  processPage_full st pg asked hpn hn hne (by rw [hl]; exact hlv)

/-- C4 witness: the theorem applied to the spec's two examples — a page
with `Name_="Cure Wounds"`, `School_="Evocation"`, `Level_="1"` yields a
full record with integer level 1 and school "Evocation"; a page with
`School_` absent and `Level_="3"` yields school "Unknown". -/
theorem c4_witness :
    processPage initState
        [⟨some "Name_F00", none, some "Cure Wounds"⟩,
         ⟨some "School_F01", none, some "Evocation"⟩,
         ⟨some "Level_F02", none, some "1"⟩] ["Cleric"] =
      some (⟨[⟨"Cure Wounds", 1, "Evocation", ["Cleric"],
               "images/Cure Wounds.webp", "spells/Cure Wounds.pdf"⟩],
             0, PyVal.vInt 1, some "Evocation", ["Cleric"]⟩,
            ["spells/Cure Wounds.pdf", "images/Cure Wounds.webp",
             "high_res_images/Cure Wounds.png"]) ∧
    processPage initState
        [⟨some "Name_F00", none, some "Toll"⟩,
         ⟨some "Level_F02", none, some "3"⟩] [] =
      some (⟨[⟨"Toll", 3, "Unknown", [],
               "images/Toll.webp", "spells/Toll.pdf"⟩],
             0, PyVal.vInt 3, some "Unknown", []⟩,
            ["spells/Toll.pdf", "images/Toll.webp",
             "high_res_images/Toll.png"]) :=
  ⟨(@c4_full_variant initState
      [⟨some "Name_F00", none, some "Cure Wounds"⟩,
       ⟨some "School_F01", none, some "Evocation"⟩,
       ⟨some "Level_F02", none, some "1"⟩] ["Cleric"]
      "Cure Wounds" (by decide) (by decide) (by decide)
      "1" (by decide) 1 (by decide)).trans (by decide),
   (@c4_full_variant initState
      [⟨some "Name_F00", none, some "Toll"⟩,
       ⟨some "Level_F02", none, some "3"⟩] []
      "Toll" (by decide) (by decide) (by decide)
      "3" (by decide) 3 (by decide)).trans (by decide)⟩

/-! ### Claim C6 -/

/-- C6: a page on which neither `Name_` nor `PName_` resolves to a
truthy value does not raise: it yields a skip — the skip counter grows
by one, no record is added, no artifact paths are produced — and the
loop state is returned for the next page. -/
theorem c6_skip_no_raise (st : LoopState) (pg : List Annot) (asked : List String)
    (hn : truthyOpt (get_form_field pg "Name_") = false)
    (hp : truthyOpt (get_form_field pg "PName_") = false) :
    ∃ st2, processPage st pg asked = some (st2, []) ∧
      st2.entries = st.entries ∧ st2.skipped = st.skipped + 1 :=
  ⟨_, processPage_skip st pg asked hn hp, rfl, rfl⟩

/-- C6 witness: a page holding only an unrelated field is skipped
without raising. -/
theorem c6_witness :
    ∃ st2, processPage initState [⟨some "Other_F00", none, some "x"⟩] [] = some (st2, []) ∧
      st2.entries = initState.entries ∧ st2.skipped = initState.skipped + 1 :=
  c6_skip_no_raise initState [⟨some "Other_F00", none, some "x"⟩] []
    (by decide) (by decide)

/-! ### Claim C10 -/

/-- C10: a skipped page (no resolvable name, `PName_` falsy) still
overwrites the carried school and level with its own resolutions, so a
subsequent name-only page builds its record from the skipped page's
school and level — whatever full page came before `st` is ignored. -/
theorem c10_skip_overwrites_carry (st : LoopState) (pg1 pg2 : List Annot)
    (a1 a2 : List String)
    (hn : truthyOpt (get_form_field pg1 "Name_") = false)
    (hp : truthyOpt (get_form_field pg1 "PName_") = false)
    {m : String} (hm : get_form_field pg2 "PName_" = some m) (hme : m ≠ "")
    {ls : String} (hl : get_form_field pg1 "Level_" = some ls)
    {lv : Int} (hlv : pyStrToInt ls = some lv) :
    ∃ st1, processPage st pg1 a1 = some (st1, []) ∧
      st1.school = get_form_field pg1 "School_" ∧
      st1.level = PyVal.vStr ls ∧
      ∃ st2 arts, processPage st1 pg2 a2 = some (st2, arts) ∧
        st2.entries = st.entries ++
          [⟨m, lv, schoolOrUnknown (get_form_field pg1 "School_"), st.classes,
            "images/" ++ m ++ ".webp", "spells/" ++ m ++ ".pdf"⟩] := by
  refine ⟨_, processPage_skip st pg1 a1 hn hp, rfl, ?_, ?_⟩
  · show pyOfOpt (get_form_field pg1 "Level_") = PyVal.vStr ls
    rw [hl]
    rfl
  · refine ⟨_, _, processPage_nameonly _ pg2 a2 hm hme ?_, rfl⟩
    show pyIntCoerce (pyOfOpt (get_form_field pg1 "Level_")) = some lv
    rw [hl]
    exact hlv

/-- C10 witness: after a full page left school "Evocation" and level 1
in the carried state, a skipped page resolving `School_="Necromancy"`,
`Level_="9"` overwrites the carry, and the following name-only page
"Wish" inherits Necromancy/9 from the skipped page. -/
theorem c10_witness :
    ∃ st1, processPage ⟨[], 0, PyVal.vInt 1, some "Evocation", ["Wizard"]⟩
        [⟨some "School_F00", none, some "Necromancy"⟩,
         ⟨some "Level_F01", none, some "9"⟩] [] = some (st1, []) ∧
      st1.school = get_form_field
        [⟨some "School_F00", none, some "Necromancy"⟩,
         ⟨some "Level_F01", none, some "9"⟩] "School_" ∧
      st1.level = PyVal.vStr "9" ∧
      ∃ st2 arts, processPage st1 [⟨some "PName_F02", none, some "Wish"⟩] [] =
          some (st2, arts) ∧
        st2.entries = [] ++
          [⟨"Wish", 9, schoolOrUnknown (get_form_field
              [⟨some "School_F00", none, some "Necromancy"⟩,
               ⟨some "Level_F01", none, some "9"⟩] "School_"), ["Wizard"],
            "images/Wish.webp", "spells/Wish.pdf"⟩] :=
  @c10_skip_overwrites_carry ⟨[], 0, PyVal.vInt 1, some "Evocation", ["Wizard"]⟩
    [⟨some "School_F00", none, some "Necromancy"⟩,
     ⟨some "Level_F01", none, some "9"⟩]
    [⟨some "PName_F02", none, some "Wish"⟩] [] []
    (by decide) (by decide) "Wish" (by decide) (by decide)
    "9" (by decide) 9 (by decide)

/-! ### Claim C7 -/

/-- C7 counterexample: a full page "Hex" for which the operator enters
the class "Warlock", followed by a name-only page "Light". The `classes`
variable is never reset, so the name-only record "Light" carries
["Warlock"] — not the empty set the claim requires for every name-only
record. -/
theorem c7_counterexample :
    get_form_field [(⟨some "PName_F02", none, some "Light"⟩ : Annot)] "PName_" =
      some "Light" ∧
    ((processPage initState
        [⟨some "Name_F00", none, some "Hex"⟩,
         ⟨some "Level_F01", none, some "1"⟩] ["Warlock"]).bind
      (fun p => (processPage p.1 [⟨some "PName_F02", none, some "Light"⟩] []).bind
        (fun q => q.1.entries.getLast?.map Entry.classes))) = some ["Warlock"] ∧
    (["Warlock"] : List String) ≠ [] := by decide

/-- C7 (amended): the classes oracle is consulted only on full-variant
pages — on a page whose `PName_` is truthy the step's result is
independent of the oracle — and a name-only record carries the `classes`
list carried over from the previous iteration (the classes most recently
collected for a full page), which is the empty list only as initialised
before any collection. -/
theorem c7_classes_carryover (st : LoopState) (pg : List Annot) (a1 a2 : List String)
    (hp : truthyOpt (get_form_field pg "PName_") = true) :
    processPage st pg a1 = processPage st pg a2 ∧
    (∀ st2 arts, processPage st pg a1 = some (st2, arts) →
      st2.classes = st.classes ∧
      ∀ e, st2.entries = st.entries ++ [e] → e.classes = st.classes) ∧
    initState.classes = [] := by
  obtain ⟨s, hgp, hs⟩ := truthyOpt_eq_true hp
  refine ⟨?_, ?_, rfl⟩
  · cases hl : pyIntCoerce st.level with
    | none =>
      rw [processPage_nameonly_fatal st pg a1 hgp hs hl,
        processPage_nameonly_fatal st pg a2 hgp hs hl]
    | some lv =>
      rw [processPage_nameonly st pg a1 hgp hs hl,
        processPage_nameonly st pg a2 hgp hs hl]
  · intro st2 arts hsome
    cases hl : pyIntCoerce st.level with
    | none =>
      rw [processPage_nameonly_fatal st pg a1 hgp hs hl] at hsome
      cases hsome
    | some lv =>
      rw [processPage_nameonly st pg a1 hgp hs hl] at hsome
      simp only [Option.some.injEq, Prod.mk.injEq] at hsome
      obtain ⟨hst, -⟩ := hsome
      subst hst
      refine ⟨rfl, ?_⟩
      intro e heq
      have he : st.entries ++ [(⟨s, lv, schoolOrUnknown st.school, st.classes,
          "images/" ++ s ++ ".webp", "spells/" ++ s ++ ".pdf"⟩ : Entry)] =
          st.entries ++ [e] := heq
      have h2 := List.append_inj_right he rfl
      simp only [List.cons.injEq, and_true] at h2
      rw [← h2]

/-- C7 witness: on a name-only page the result does not depend on what
the oracle would have answered. -/
theorem c7_witness :
    processPage ⟨[], 0, PyVal.vInt 1, some "Evocation", ["Wizard"]⟩
        [⟨some "PName_F00", none, some "Light"⟩] ["Monk"] =
      processPage ⟨[], 0, PyVal.vInt 1, some "Evocation", ["Wizard"]⟩
        [⟨some "PName_F00", none, some "Light"⟩] [] :=
  (c7_classes_carryover ⟨[], 0, PyVal.vInt 1, some "Evocation", ["Wizard"]⟩
    [⟨some "PName_F00", none, some "Light"⟩] ["Monk"] [] (by decide)).1

/-! ### Claim C5 -/

/-- C5: the level stored in a record is always the integer coercion of
the level value in scope, and an iteration raises exactly when the page
is not skipped and that value — the carried level on a name-only page,
the freshly resolved `Level_` otherwise — is absent (`None`) or a
non-numeric string. -/
theorem c5_level_fatal (st : LoopState) (pg : List Annot) (asked : List String) :
    (processPage st pg asked = none ↔
      pageAccepted pg = true ∧
        (levelToCoerce st pg = PyVal.vNone ∨
          ∃ s, levelToCoerce st pg = PyVal.vStr s ∧ pyStrToInt s = none)) ∧
    (∀ st2 arts e, processPage st pg asked = some (st2, arts) →
      st2.entries = st.entries ++ [e] →
      pyIntCoerce (levelToCoerce st pg) = some e.level) := by
  rw [← pyIntCoerce_eq_none]
  by_cases hp : truthyOpt (get_form_field pg "PName_") = true
  · obtain ⟨s, hgp, hs⟩ := truthyOpt_eq_true hp
    have hacc : pageAccepted pg = true := by simp [pageAccepted, hp]
    have hltc : levelToCoerce st pg = st.level := by simp [levelToCoerce, hp]
    rw [hltc, hacc]
    cases hl : pyIntCoerce st.level with
    | none =>
      have h1 := processPage_nameonly_fatal st pg asked hgp hs hl
      refine ⟨by simp [h1, hl], ?_⟩
      intro st2 arts e hsome
      rw [h1] at hsome
      cases hsome
    | some lv =>
      have h1 := processPage_nameonly st pg asked hgp hs hl
      refine ⟨by simp [h1, hl], ?_⟩
      intro st2 arts e hsome heq
      rw [h1] at hsome
      simp only [Option.some.injEq, Prod.mk.injEq] at hsome
      obtain ⟨hst, -⟩ := hsome
      subst hst
      have he : st.entries ++ [(⟨s, lv, schoolOrUnknown st.school, st.classes,
          "images/" ++ s ++ ".webp", "spells/" ++ s ++ ".pdf"⟩ : Entry)] =
          st.entries ++ [e] := heq
      have h2 := List.append_inj_right he rfl
      simp only [List.cons.injEq, and_true] at h2
      rw [← h2]
  · have hpf : truthyOpt (get_form_field pg "PName_") = false := by
      cases h2 : truthyOpt (get_form_field pg "PName_")
      · rfl
      · exact absurd h2 hp
    have hltc : levelToCoerce st pg = pyOfOpt (get_form_field pg "Level_") := by
      simp [levelToCoerce, hpf]
    rw [hltc]
    by_cases hn : truthyOpt (get_form_field pg "Name_") = true
    · obtain ⟨n, hgn, hne⟩ := truthyOpt_eq_true hn
      have hacc : pageAccepted pg = true := by simp [pageAccepted, hn]
      rw [hacc]
      cases hl : pyIntCoerce (pyOfOpt (get_form_field pg "Level_")) with
      | none =>
        have h1 := processPage_full_fatal st pg asked hpf hn hl
        refine ⟨by simp [h1, hl], ?_⟩
        intro st2 arts e hsome
        rw [h1] at hsome
        cases hsome
      | some lv =>
        obtain ⟨ls, hls⟩ : ∃ ls, get_form_field pg "Level_" = some ls := by
          cases hgl : get_form_field pg "Level_" with
          | none => rw [hgl] at hl; cases hl
          | some ls => exact ⟨ls, rfl⟩
        have hlv : pyStrToInt ls = some lv := by
          rw [hls] at hl
          exact hl
        have h1 := processPage_full st pg asked hpf hgn hne (by rw [hls]; exact hlv)
        refine ⟨by simp [h1, hl], ?_⟩
        intro st2 arts e hsome heq
        rw [h1] at hsome
        simp only [Option.some.injEq, Prod.mk.injEq] at hsome
        obtain ⟨hst, -⟩ := hsome
        subst hst
        have he : st.entries ++ [(⟨n, lv, schoolOrUnknown (get_form_field pg "School_"),
            asked, "images/" ++ n ++ ".webp", "spells/" ++ n ++ ".pdf"⟩ : Entry)] =
            st.entries ++ [e] := heq
        have h2 := List.append_inj_right he rfl
        simp only [List.cons.injEq, and_true] at h2
        rw [← h2]
    · have hnf : truthyOpt (get_form_field pg "Name_") = false := by
        cases h2 : truthyOpt (get_form_field pg "Name_")
        · rfl
        · exact absurd h2 hn
      have hacc : pageAccepted pg = false := by simp [pageAccepted, hnf, hpf]
      have h1 := processPage_skip st pg asked hnf hpf
      refine ⟨by simp [h1, hacc], ?_⟩
      intro st2 arts e hsome heq
      rw [h1] at hsome
      simp only [Option.some.injEq, Prod.mk.injEq] at hsome
      obtain ⟨hst, -⟩ := hsome
      subst hst
      have he : st.entries = st.entries ++ [e] := heq
      simp at he

/-- C5 witness: a full page with a name but no `Level_` field raises. -/
theorem c5_witness :
    processPage initState [⟨some "Name_F00", none, some "A"⟩] [] = none :=
  (c5_level_fatal initState [⟨some "Name_F00", none, some "A"⟩] []).1.mpr
    ⟨by decide, Or.inl (by decide)⟩

/-! ### Helper lemmas about the appender's marker search -/

/-- The position reported by `rfind` carries an occurrence. -/
theorem rfindSub_isSubAt {cs pat : List Char} {pos : Nat}
    (h : rfindSub cs pat = some pos) : isSubAt cs pat pos = true :=
  (List.mem_filter.mp (List.mem_of_getLast?_eq_some h)).2

/-- In a strictly increasing list, the last element bounds every
member. -/
theorem sorted_getLast?_max {l : List Nat} (hs : l.Pairwise (· < ·)) {x m : Nat}
    (hx : x ∈ l) (hm : l.getLast? = some m) : x ≤ m := by
  induction l with
  | nil => cases hx
  | cons a t ih =>
    rcases List.mem_cons.mp hx with rfl | hx2
    · cases t with
      | nil =>
        simp only [List.getLast?_singleton, Option.some.injEq] at hm
        exact Nat.le_of_eq hm
      | cons b u =>
        rw [List.getLast?_cons_cons] at hm
        exact Nat.le_of_lt
          ((List.pairwise_cons.mp hs).1 m (List.mem_of_getLast?_eq_some hm))
    · cases t with
      | nil => cases hx2
      | cons b u =>
        rw [List.getLast?_cons_cons] at hm
        exact ih (List.pairwise_cons.mp hs).2 hx2 hm

/-- No occurrence of a nonempty pattern lies to the right of the
position reported by `rfind`. -/
theorem rfindSub_last {cs pat : List Char} (hpat : pat ≠ []) {pos : Nat}
    (h : rfindSub cs pat = some pos) {j : Nat} (hjp : pos < j) :
    isSubAt cs pat j = false := by
  cases hb : isSubAt cs pat j with
  | false => rfl
  | true =>
    exfalso
    have hle : j ≤ cs.length := by
      by_contra hgt
      push_neg at hgt
      have hdrop : cs.drop j = [] := List.drop_eq_nil_of_le (Nat.le_of_lt hgt)
      rw [isSubAt, hdrop] at hb
      cases pat with
      | nil => exact hpat rfl
      | cons p ps => simp [List.isPrefixOf] at hb
    have hjmem : j ∈ (List.range (cs.length + 1)).filter (fun i => isSubAt cs pat i) :=
      List.mem_filter.mpr ⟨List.mem_range.mpr (Nat.lt_succ_of_le hle), hb⟩
    have hpair : ((List.range (cs.length + 1)).filter
        (fun i => isSubAt cs pat i)).Pairwise (· < ·) :=
      (List.pairwise_lt_range _).filter _
    exact Nat.not_lt.mpr (sorted_getLast?_max hpair hjmem h) hjp

/-! ### Claim C8 -/

/-- C8: when the collection file is absent the appender behaves as if an
empty well-formed collection were present, and succeeds on it; when an
append succeeds on an existing content, the output is that content with
the entry lines (in input order) spliced in immediately before the LAST
occurrence of the closing marker "];" — every character before the
splice point unchanged, the marker and everything after it following the
inserted text; and when the content has no occurrence of the marker the
appender returns no write at all. -/
theorem c8_appender_splice :
    (∀ es, append_to_spells_js none es = append_to_spells_js (some emptySpellsJs) es) ∧
    (∀ es, (append_to_spells_js none es).isSome = true) ∧
    (∀ c es out, append_to_spells_js (some c) es = some out →
      ∃ pos, isSubAt c.data "];".data pos = true ∧
        (∀ j, pos < j → isSubAt c.data "];".data j = false) ∧
        out.data = c.data.take pos ++ (entriesText es).data ++ c.data.drop pos) ∧
    (∀ c es, rfindSub c.data "];".data = none → append_to_spells_js (some c) es = none) := by
  refine ⟨fun es => rfl, fun es => ?_, ?_, ?_⟩
  · have h17 : rfindSub (emptySpellsJs.data) "];".data = some 17 := by decide
    simp [append_to_spells_js, h17]
  · intro c es out h
    unfold append_to_spells_js at h
    simp only [Option.getD_some] at h
    cases hf : rfindSub c.data "];".data with
    | none =>
      rw [hf] at h
      cases h
    | some pos =>
      rw [hf] at h
      refine ⟨pos, rfindSub_isSubAt hf,
        fun j hj => rfindSub_last (by decide) hf hj, ?_⟩
      have h2 : some (⟨c.data.take pos ++ (entriesText es).data ++ c.data.drop pos⟩ : String) =
          some out := h
      rw [← Option.some.inj h2]
  · intro c es h
    unfold append_to_spells_js
    simp only [Option.getD_some]
    rw [h]

/-- C8 witness: the appender refuses to write when the marker is absent
from the existing content. -/
theorem c8_witness :
    append_to_spells_js (some "no closing marker") [] = none :=
  c8_appender_splice.2.2.2 "no closing marker" [] (by decide)

end SpellCompendium
